import Mathlib

/-!
Verification of the beat in-process event bus (github.com/uniyakcom/beat)
against its natural-language specification.  The Go sources are shallowly
embedded: pure functions become Lean functions, stateful code becomes
explicit state passing, `uint64`/`int64` counters become `Nat`/`Int`
(monotonic indices never reach 2^64 in the modelled runs, so wrap-around
is irrelevant and noted where the source relies on it), and handler
invocation is made observable through explicit invocation logs.
-/

namespace Beat

/-!
Pattern matcher, from core/matcher.go.

Patterns and event types are '.'-separated strings in Go; `splitNoAlloc`
(matcher.go lines 101-113) turns a string into its list of segments and
joining with '.' inverts it, so the embedding represents patterns and
event types directly by their segment lists (`List String`).  The Go
`node.pattern` zero value "" is represented by `[]`.  The sharded match
cache (matcher.go lines 224-236, 247-254) is not modelled: a cached entry
is only replayed when its stored version equals the current version, and
it then holds exactly the slice a fresh trie walk at that version
computed, so sequential `Match` results are unchanged by the cache.
-/

abbrev Seg := String

/-- Trie node, from core/matcher.go `node` (lines 48-53): `children` is the
Go map modelled as an association list with unique keys, and
`pattern`, `refCount`, `isEnd` are as in the source. -/
inductive TNode where
  | node (children : List (Seg × TNode)) (pattern : List Seg) (refCount : Int) (isEnd : Bool)

def TNode.children : TNode → List (Seg × TNode)
  | .node c _ _ _ => c

def TNode.pattern : TNode → List Seg
  | .node _ p _ _ => p

def TNode.refCount : TNode → Int
  | .node _ _ r _ => r

def TNode.isEnd : TNode → Bool
  | .node _ _ _ e => e

/-- Go `newNode()` (matcher.go lines 65-69): empty children map, zero-value
pattern, refCount and isEnd. -/
def newNode : TNode := .node [] [] 0 false

/-- Lookup in the children map (Go `n.children[part]`). -/
def lookupChild : List (Seg × TNode) → Seg → Option TNode
  | [], _ => none
  | (k, v) :: rest, key => if k = key then some v else lookupChild rest key

/-- Store in the children map (Go `n.children[part] = ...`): replaces the
binding if the key is present, otherwise appends it. -/
def setChild : List (Seg × TNode) → Seg → TNode → List (Seg × TNode)
  | [], k, v => [(k, v)]
  | (k1, v1) :: rest, k, v =>
      if k1 = k then (k, v) :: rest else (k1, v1) :: setChild rest k v

/-- Delete from the children map (Go `delete(pathBuf[i].children, parts[i])`). -/
def eraseChild : List (Seg × TNode) → Seg → List (Seg × TNode)
  | [], _ => []
  | (k1, v1) :: rest, k =>
      if k1 = k then rest else (k1, v1) :: eraseChild rest k

/-- Character scan of one segment for '*' (in UTF-8 the byte 0x2A occurs
exactly at the character '*', so the byte scan of the Go source and this
character scan agree). -/
def segHasStar (s : Seg) : Bool :=
  s.data.any (fun c => c = '*')

/-- Go `containsStar` (matcher.go lines 74-81): scans every byte of the
pattern string for '*'; segment-wise scanning is equivalent because the
only other bytes are the '.' separators. -/
def containsStar (pattern : List Seg) : Bool :=
  pattern.any segHasStar

/-- Go `maxTrieDepth` (matcher.go line 13). -/
def maxTrieDepth : Nat := 16

/-- Matcher state, from core/matcher.go `TrieMatcher` (lines 21-36): the
trie root, the exact-match set (`exact sync.Map`, keys only) and the cache
version counter `cacheVer`.  The cache shards themselves are not part of
the modelled state (see the section comment). -/
structure TrieMatcher where
  root : TNode
  exact : List (List Seg)
  cacheVer : Nat

/-- Go `NewTrieMatcher` (matcher.go lines 56-63). -/
def NewTrieMatcher : TrieMatcher := ⟨newNode, [], 0⟩

/-- Go `t.exact.Store(pattern, true)`: set-like insert. -/
def exactStore (l : List (List Seg)) (p : List Seg) : List (List Seg) :=
  if p ∈ l then l else p :: l

/-- Go `t.exact.Delete(pattern)`. -/
def exactDelete (l : List (List Seg)) (p : List Seg) : List (List Seg) :=
  l.erase p

/-- The trie walk of `TrieMatcher.Add` (matcher.go lines 130-141): walks
`parts`, creating missing nodes, and at the end sets `isEnd`, stores the
full pattern and increments `refCount`. -/
def addGo : TNode → List Seg → List Seg → TNode
  | n, [], pat => .node n.children pat (n.refCount + 1) true
  | n, part :: rest, pat =>
      let child := (lookupChild n.children part).getD newNode
      .node (setChild n.children part (addGo child rest pat)) n.pattern n.refCount n.isEnd

/-- Go `TrieMatcher.Add` (matcher.go lines 126-152): trie insert, exact-set
store for star-free patterns, cache-version bump. -/
def TrieMatcher.Add (t : TrieMatcher) (pattern : List Seg) : TrieMatcher :=
  ⟨addGo t.root pattern pattern,
   if containsStar pattern then t.exact else exactStore t.exact pattern,
   t.cacheVer + 1⟩

/-- The bottom-up pruning test of `TrieMatcher.Remove` (matcher.go line 196):
`!child.isEnd && len(child.children) == 0 && child.refCount == 0`. -/
def prunable (n : TNode) : Bool :=
  !n.isEnd && n.children.isEmpty && (n.refCount == 0)

/-- The walk of `TrieMatcher.Remove` (matcher.go lines 163-201), fused with
its bottom-up pruning.  `pathLen` counts the nodes on the path including
the root, exactly like the Go `pathLen` (initially 1); the depth guard
`pathLen > maxTrieDepth` is checked before each child lookup.  `none`
models the two early `return`s (depth exceeded, or child missing), which
leave the matcher untouched; `some n` is the updated node.  The recursive
formulation prunes a child exactly when the Go loop would delete it: once
a child survives, every ancestor has a nonempty children map and the Go
loop `break`s. -/
def removeGo : TNode → List Seg → Nat → Option TNode
  | n, [], _ =>
      let rc := if n.refCount > 0 then n.refCount - 1 else n.refCount
      some (if rc == 0 then .node n.children [] rc false
            else .node n.children n.pattern rc n.isEnd)
  | n, part :: rest, pathLen =>
      if pathLen > maxTrieDepth then none
      else
        match lookupChild n.children part with
        | none => none
        | some child =>
          match removeGo child rest (pathLen + 1) with
          | none => none
          | some child1 =>
            some (.node
              (if prunable child1 then eraseChild n.children part
               else setChild n.children part child1)
              n.pattern n.refCount n.isEnd)

/-- Go `TrieMatcher.Remove` (matcher.go lines 156-211).  Both early returns
(depth guard and missing child) skip the refCount update, the pruning, the
exact-set delete and the `cacheVer` bump. -/
def TrieMatcher.Remove (t : TrieMatcher) (pattern : List Seg) : TrieMatcher :=
  match removeGo t.root pattern 1 with
  | none => t
  | some root1 =>
      ⟨root1,
       if containsStar pattern then t.exact else exactDelete t.exact pattern,
       t.cacheVer + 1⟩

/-- Go `TrieMatcher.matchRecursive` (matcher.go lines 259-286), with the
result accumulator made explicit: at the end of the parts the node's own
terminal pattern and a terminal `**` child are collected; at an inner
depth the literal child, the `*` child and a terminal `**` child are
tried, in source order. -/
def matchRec : TNode → List Seg → List (List Seg)
  | n, [] =>
      (if n.isEnd then [n.pattern] else []) ++
      (match lookupChild n.children "**" with
       | some c => if c.isEnd then [c.pattern] else []
       | none => [])
  | n, part :: rest =>
      (match lookupChild n.children part with
       | some c => matchRec c rest
       | none => []) ++
      (match lookupChild n.children "*" with
       | some c => matchRec c rest
       | none => []) ++
      (match lookupChild n.children "**" with
       | some c => if c.isEnd then [c.pattern] else []
       | none => [])

/-- Go `TrieMatcher.Match` (matcher.go lines 215-257): the exact-match fast
path returns just the event type itself; otherwise the trie is walked.
(The cache fast path is result-identical, see the section comment.) -/
def TrieMatcher.Match (t : TrieMatcher) (eventType : List Seg) : List (List Seg) :=
  if eventType ∈ t.exact then [eventType] else matchRec t.root eventType

/-- Path lookup in the trie (the walk `n = n.children[part]` used by both
`Add` and `Remove`), for stating where a pattern terminates. -/
def findPath : TNode → List Seg → Option TNode
  | n, [] => some n
  | n, part :: rest =>
      match lookupChild n.children part with
      | some c => findPath c rest
      | none => none

/-- A matcher built by a sequence of `Add` calls, for quantifying over
"every matcher state in which pattern p has been added". -/
def addAll (ps : List (List Seg)) : TrieMatcher :=
  ps.foldl TrieMatcher.Add NewTrieMatcher

/-- The pattern `pfull` terminates in the trie below `n` at the end of
`path`: the node walk of Add/Remove reaches a terminal node carrying it. -/
def TerminalAt (n : TNode) (path pfull : List Seg) : Prop :=
  ∃ m, findPath n path = some m ∧ m.isEnd = true ∧ m.pattern = pfull

/-- Character scan of a segment for '.', used to state the claims'
"segment containing no dot" side conditions. -/
def segHasDot (s : Seg) : Bool :=
  s.data.any (fun c => c = '.')

/-- Go `splitNoAlloc(s, '.')` (matcher.go lines 101-113): cuts the string
at every '.', keeping empty parts, and always appends the final part, so
the result is never empty.  Implemented by the same left-to-right scan. -/
def splitNoAllocAux : List Char → List Char → List String
  | [], acc => [String.mk acc.reverse]
  | c :: rest, acc =>
      if c = '.' then String.mk acc.reverse :: splitNoAllocAux rest []
      else splitNoAllocAux rest (c :: acc)

def splitDot (s : String) : List String :=
  splitNoAllocAux s.data []

/-- Joining segments with '.', the inverse used where the Go code keeps
whole pattern strings (handler-map keys) while the matcher walks segments. -/
def joinDot (segs : List Seg) : String :=
  String.intercalate "." segs

/-!
Events and handlers, from the core package (appended to core/matcher.go).
-/

/-- Go `core.Event`.  The Go field `Type` is renamed `etype` (`Type` is a
Lean keyword); `Data` is the byte payload, `Timestamp` a clock value. -/
structure Event where
  Data : List Nat
  etype : String
  ID : String
  Source : String
  Metadata : List (String × String)
  Timestamp : Nat
deriving DecidableEq

/-- The observable outcome of one Go handler call: nil error, non-nil
error, or a runtime panic (the spec's "handler fault"). -/
inductive HRes where
  | ok
  | err (msg : String)
  | fault (msg : String)
deriving DecidableEq

/-- Go `core.Handler` (`func(*Event) error`), tagged with an id so that
handler invocations are observable in the embedding. -/
structure Handler where
  hid : Nat
  fn : Event → HRes

/-- Assoc-list lookup for Go's `map[string][]core.Handler`; a missing key
is the nil slice. -/
def lookupHS : List (String × List Handler) → String → List Handler
  | [], _ => []
  | (k, v) :: rest, key => if k = key then v else lookupHS rest key

/-- Handler iteration as in the Go sync dispatch loops: records the ids of
the handlers invoked, stopping at the first non-nil error (returned
eagerly by `UnsafeEmit`) or at a panic (which unwinds). -/
def runHandlers : List Handler → Event → List Nat × HRes
  | [], _ => ([], .ok)
  | h :: rest, evt =>
      match h.fn evt with
      | .ok =>
          let r := runHandlers rest evt
          (h.hid :: r.1, r.2)
      | .err m => ([h.hid], .err m)
      | .fault m => ([h.hid], .fault m)

/-- Go `core.Stats`. -/
structure Stats where
  Emitted : Int
  Processed : Int
  Panics : Int
  Depth : Int

/-!
Sync bus, from the sync package (part_013, the SPSC-scheduler-based
revision the claims cite).  PerCPUCounter values are modelled by their
`Read()` sum; the per-slot sharding only affects contention.
-/

/-- Go sync `sub` (part_013). -/
structure Sub where
  pattern : String
  handler : Handler
  id : Nat

/-- Go sync `subsSnapshot` (part_013 lines 21-26). -/
structure SubsSnapshot where
  byID : List (String × List Sub)
  handlers : List (String × List Handler)
  singleKey : String
  singleHandlers : List Handler

/-- Go `buildSnapshot` (part_013 lines 29-47): flattens each pattern's
subscriber list into handlers and fills the single-key fast path exactly
when there is one distinct pattern; `singleKey` otherwise keeps the Go
zero value "". -/
def buildSnapshot (byID : List (String × List Sub)) : SubsSnapshot :=
  let handlers := byID.map (fun kv => (kv.1, kv.2.map Sub.handler))
  if byID.length = 1 then
    match handlers with
    | [(k, hs)] => ⟨byID, handlers, k, hs⟩
    | _ => ⟨byID, handlers, "", []⟩
  else ⟨byID, handlers, "", []⟩

/-- Go `newByID[pattern] = append(newByID[pattern], s)` on the cloned map. -/
def byIDAppend : List (String × List Sub) → String → Sub → List (String × List Sub)
  | [], pat, s => [(pat, [s])]
  | (k, v) :: rest, pat, s =>
      if k = pat then (k, v ++ [s]) :: rest
      else (k, v) :: byIDAppend rest pat s

/-- Go sync `Bus` (part_013 lines 51-84).  `queued` is the content of the
SPSC scheduler's rings in async mode (`spsc.Submit` appends to it);
`subID` models the package-global subscription id counter. -/
structure SyncBus where
  matcher : TrieMatcher
  subs : SubsSnapshot
  closed : Bool
  async : Bool
  queued : List Event
  subID : Nat
  emitted : Int
  processed : Int
  panics : Int

/-- Go sync `NewBus` (part_013 lines 128-143): synchronous mode. -/
def NewBus : SyncBus :=
  ⟨NewTrieMatcher, buildSnapshot [], false, false, [], 0, 0, 0, 0⟩

/-- Go sync `Bus.On` (part_013): new id, clone-and-append `byID`, rebuild
the snapshot, `matcher.Add(pattern)`. -/
def SyncBus.On (bus : SyncBus) (pattern : String) (h : Handler) : Nat × SyncBus :=
  let id := bus.subID + 1
  let s : Sub := ⟨pattern, h, id⟩
  (id, { bus with
          subs := buildSnapshot (byIDAppend bus.subs.byID pattern s),
          matcher := bus.matcher.Add (splitDot pattern),
          subID := id })

/-- Go sync `Bus.UnsafeEmit` (part_013): single-key fast path, else map
lookup; iterates handlers, first error returned eagerly, no counters. -/
def SyncBus.UnsafeEmit (bus : SyncBus) (evt : Event) : List Nat × HRes :=
  if bus.subs.singleKey = evt.etype then runHandlers bus.subs.singleHandlers evt
  else runHandlers (lookupHS bus.subs.handlers evt.etype) evt

/-- Go sync `Bus.emitSyncCounted` (part_013 lines 330-333): bumps the
emitted counter, then `UnsafeEmit`. -/
def SyncBus.emitSyncCounted (bus : SyncBus) (evt : Event) :
    SyncBus × List Nat × HRes :=
  let bus1 := { bus with emitted := bus.emitted + 1 }
  let r := bus1.UnsafeEmit evt
  (bus1, r.1, r.2)

/-- Go sync `Bus.emitSyncSafe` (part_013 lines 316-328): the recover guard
around `emitSyncCounted` — a handler panic becomes a panics-counter bump
and a tagged error; a handler error or nil passes through. -/
def SyncBus.emitSyncSafe (bus : SyncBus) (evt : Event) :
    SyncBus × List Nat × Option String :=
  let r := bus.emitSyncCounted evt
  match r.2.2 with
  | .ok => (r.1, r.2.1, none)
  | .err m => (r.1, r.2.1, some m)
  | .fault m => ({ r.1 with panics := r.1.panics + 1 }, r.2.1,
                 some ("handler panic: " ++ m))

/-- Go sync `Bus.emitAsync` (part_013 lines 336-341): bump emitted, submit
the event to the SPSC scheduler (no handler runs on the emit path). -/
def SyncBus.emitAsync (bus : SyncBus) (evt : Event) :
    SyncBus × List Nat × Option String :=
  ({ bus with emitted := bus.emitted + 1, queued := bus.queued ++ [evt] },
   [], none)

/-- Go sync `Bus.Emit` (part_013 lines 302-310): nil guard, then the async
or the synchronous safe path.  Note: no check of the `closed` flag. -/
def SyncBus.Emit (bus : SyncBus) (evt : Option Event) :
    SyncBus × List Nat × Option String :=
  match evt with
  | none => (bus, [], none)
  | some e => if bus.async then bus.emitAsync e else bus.emitSyncSafe e

/-- Go sync `Bus.Close` (part_013 lines 459-476): compare-and-set of the
closed flag (scheduler stop and error-channel teardown concern the async
resources only). -/
def SyncBus.Close (bus : SyncBus) : SyncBus :=
  if bus.closed then bus else { bus with closed := true }

/-- Go sync `Bus.Stats` (part_013 lines 450-456): reads the emitted,
processed and panics counters (no Depth). -/
def SyncBus.Stats (bus : SyncBus) : Stats :=
  ⟨bus.emitted, bus.processed, bus.panics, 0⟩

/-!
Async bus, from the async package (source appended to flow/bus.go).
Only the emit path is needed by the claims: `Emit` guards on nil and on
the closed flag and otherwise submits to the sharded scheduler
(`submitted`); handler dispatch happens on the consumer side.
-/

/-- Go async `Bus`, restricted to the fields the emit path reads. -/
structure AsyncBus where
  closed : Bool
  submitted : List Event

/-- Go async `Bus.Emit`: `if evt == nil || e.closed.Load() { return nil }`
then `e.sched.Submit(evt)`. -/
def AsyncBus.Emit (bus : AsyncBus) (evt : Option Event) :
    Option String × AsyncBus :=
  match evt with
  | none => (none, bus)
  | some e =>
      if bus.closed then (none, bus)
      else (none, { bus with submitted := bus.submitted ++ [e] })

/-!
Flow bus, from internal/impl/flow/bus.go.
-/

/-- Go flow `Stage` (bus.go line 16): `func([]*core.Event) error`.  Stages
may transform events in place; the embedding models the error result,
which is what drives the control flow the claims are about. -/
def Stage := List Event → Option String

/-- Go flow `subscription` (bus.go lines 19-23). -/
structure FlowSub where
  id : Nat
  pattern : String
  handler : Handler

/-- Go `flowSnapshot` (bus.go lines 26-30). -/
structure FlowSnapshot where
  subs : List FlowSub
  handlers : List (String × List Handler)
  hasWildcard : Bool

/-- Go flow `containsWildcard` (bus.go lines 356-363), as a character scan
(the byte 0x2A is exactly the character '*' in UTF-8). -/
def containsWildcard (pattern : String) : Bool :=
  pattern.data.any (fun c => c = '*')

/-- Go `handlers[s.pattern] = append(handlers[s.pattern], s.handler)`. -/
def handlersAppend : List (String × List Handler) → String → Handler →
    List (String × List Handler)
  | [], pat, h => [(pat, [h])]
  | (k, v) :: rest, pat, h =>
      if k = pat then (k, v ++ [h]) :: rest
      else (k, v) :: handlersAppend rest pat h

/-- Go `buildFlowSnapshot` (bus.go lines 344-354). -/
def buildFlowSnapshot (subs : List FlowSub) : FlowSnapshot :=
  ⟨subs,
   subs.foldl (fun m s => handlersAppend m s.pattern s.handler) [],
   subs.any (fun s => containsWildcard s.pattern)⟩

/-- Go flow `RB` (bus.go lines 38-112), the Disruptor-style MPSC ring.
Executed sequentially, the slot-sequence protocol is exactly a bounded
FIFO: `push` claims the slot and succeeds when fewer than `cap` events are
pending (`seq == tail`) and fails when the slot is unreleased (`diff < 0`,
ring full); `popBatch` takes committed events from the front.  The
embedding models that sequential behavior directly. -/
structure RB where
  buf : List Event
  cap : Nat
deriving DecidableEq

/-- Go `RB.push` (bus.go lines 72-88), sequential semantics. -/
def RB.push (r : RB) (e : Event) : Bool × RB :=
  if r.buf.length < r.cap then (true, ⟨r.buf ++ [e], r.cap⟩) else (false, r)

/-- Go flow `Bus` (bus.go lines 115-146), restricted to the fields the
claims observe; counters are their uint64 values. -/
structure FlowBus where
  matcher : TrieMatcher
  buffers : List RB
  shardMask : Nat
  numShards : Nat
  snap : FlowSnapshot
  closed : Bool
  stages : List Stage
  emitted : Nat
  processed : Nat
  batches : Nat

/-- Go flow `getShard` (bus.go lines 207-213): rolling byte hash
`h = h*31 + byte` in uint64 (mod 2^64; event types are ASCII, so the byte
scan is the character scan), masked onto the shard count. -/
def goHash (s : String) : Nat :=
  s.data.foldl (fun h c => (h * 31 + c.toNat) % (2 ^ 64)) 0

def FlowBus.getShard (bus : FlowBus) (eventType : String) : Nat :=
  Nat.land (goHash eventType) bus.shardMask

/-- The stage loop of `processBatch` (bus.go lines 304-312): stages run
left to right over `current` — which is never reassigned — and a stage
error `break`s, skipping the remaining stages.  Returns the results of
the stages that actually ran. -/
def runStages : List Stage → List Event → List (Option String)
  | [], _ => []
  | st :: rest, current =>
      if current.isEmpty then []
      else
        match st current with
        | some e => [some e]
        | none => none :: runStages rest current

/-- One event's handler fan-out inside flow `processBatch`: handler errors
are discarded (`h(evt)` return value ignored), a panic unwinds. -/
def runFlowHandlers : List Handler → Event → List (Nat × Event) × Option String
  | [], _ => ([], none)
  | h :: rest, evt =>
      match h.fn evt with
      | .fault m => ([(h.hid, evt)], some m)
      | _ =>
          let r := runFlowHandlers rest evt
          ((h.hid, evt) :: r.1, r.2)

/-- The wildcard branch of flow dispatch: for each pattern returned by the
matcher, run that pattern's handlers. -/
def runFlowPatterns : List (List Seg) → List (String × List Handler) → Event →
    List (Nat × Event) × Option String
  | [], _, _ => ([], none)
  | pat :: rest, hs, evt =>
      let r1 := runFlowHandlers (lookupHS hs (joinDot pat)) evt
      match r1.2 with
      | some m => (r1.1, some m)
      | none =>
          let r2 := runFlowPatterns rest hs evt
          (r1.1 ++ r2.1, r2.2)

/-- The per-event loop of flow dispatch (bus.go lines 317-335). -/
def runFlowEvents (snap : FlowSnapshot) (matcher : TrieMatcher) :
    List Event → List (Nat × Event) × Option String
  | [] => ([], none)
  | evt :: rest =>
      let r1 :=
        if !snap.hasWildcard then
          runFlowHandlers (lookupHS snap.handlers evt.etype) evt
        else
          runFlowPatterns (matcher.Match (splitDot evt.etype)) snap.handlers evt
      match r1.2 with
      | some m => (r1.1, some m)
      | none =>
          let r2 := runFlowEvents snap matcher rest
          (r1.1 ++ r2.1, r2.2)

/-- The handler-dispatch block of `processBatch` (bus.go lines 315-335):
guarded by `len(snap.handlers) > 0 && len(current) > 0`. -/
def dispatchFlow (snap : FlowSnapshot) (matcher : TrieMatcher)
    (events : List Event) : List (Nat × Event) × Option String :=
  if snap.handlers.isEmpty || events.isEmpty then ([], none)
  else runFlowEvents snap matcher events

/-- Go flow `processBatch` (bus.go lines 298-341): run the stages (a stage
error only breaks the stage loop), dispatch handlers over the unchanged
`current = events`, then update the processed and batches counters.  A
handler panic unwinds before the counter updates (it is caught by
`safeProcessBatch`).  Returns (executed stage results, invocation log,
updated bus). -/
def FlowBus.processBatch (bus : FlowBus) (events : List Event) :
    List (Option String) × List (Nat × Event) × FlowBus :=
  if events.isEmpty then ([], [], bus)
  else
    let stres := runStages bus.stages events
    let d := dispatchFlow bus.snap bus.matcher events
    match d.2 with
    | some _ => (stres, d.1, bus)
    | none => (stres, d.1,
        { bus with processed := bus.processed + events.length,
                   batches := bus.batches + 1 })

/-- Go `p.buffers[shard].push(evt)` as a whole-list update: `none` when
the push fails (ring full) or the index is out of range. -/
def pushAt (bufs : List RB) (i : Nat) (e : Event) : Option (List RB) :=
  match bufs[i]? with
  | none => none
  | some r =>
      let pr := r.push e
      if pr.1 then some (bufs.set i pr.2) else none

/-- The fallback loop of flow `Emit` (bus.go lines 435-440):
`for i := 0; i < p.numShards; i++` trying every shard in order. -/
def tryPushIdx (bufs : List RB) (e : Event) : List Nat → Option (List RB)
  | [] => none
  | i :: rest =>
      match pushAt bufs i e with
      | some bufs1 => some bufs1
      | none => tryPushIdx bufs e rest

/-- Go flow `Bus.Emit` (bus.go lines 426-445): nil/closed guard, emitted
bump, push to the hashed shard; on failure try every shard, and if all are
full process the event inline via `processBatch`. -/
def FlowBus.Emit (bus : FlowBus) (evt : Option Event) :
    Option String × List (Nat × Event) × FlowBus :=
  match evt with
  | none => (none, [], bus)
  | some e =>
      if bus.closed then (none, [], bus)
      else
        let bus1 := { bus with emitted := bus.emitted + 1 }
        let shard := bus1.getShard e.etype
        match pushAt bus1.buffers shard e with
        | some bufs => (none, [], { bus1 with buffers := bufs })
        | none =>
            match tryPushIdx bus1.buffers e (List.range bus1.numShards) with
            | some bufs => (none, [], { bus1 with buffers := bufs })
            | none =>
                let r := bus1.processBatch [e]
                (none, r.2.1, r.2.2)

/-- Go flow `Bus.EmitBatch` (bus.go lines 453-467): empty/closed guard;
per event: skip nil, bump emitted, push to the hashed shard with the
return value discarded — no fallback, no inline processing. -/
def FlowBus.EmitBatch (bus : FlowBus) (events : List (Option Event)) :
    Option String × List (Nat × Event) × FlowBus :=
  if events.isEmpty || bus.closed then (none, [], bus)
  else
    (none, [],
     events.foldl
       (fun b oe =>
         match oe with
         | none => b
         | some e =>
             let b1 := { b with emitted := b.emitted + 1 }
             let shard := b1.getShard e.etype
             match pushAt b1.buffers shard e with
             | some bufs => { b1 with buffers := bufs }
             | none => b1)
       bus)

/-!
SPSC ring, from internal/support/spsc/spsc.go.  The uint64 indices are
modelled as unbounded naturals: they grow monotonically from 0 and the
wrap at 2^64 is never reached in the modelled runs; in every reachable
state `cachedHead ≤ head` and `head ≤ tail`, so the Go uint64
subtractions in the full/empty tests equal natural subtraction.
-/

/-- Go `SPSCRing[T]` (spsc.go lines 30-44). -/
structure SPSCRing (T : Type) where
  head : Nat
  cachedTail : Nat
  tail : Nat
  cachedHead : Nat
  buf : List T
  mask : Nat
deriving DecidableEq

/-- Go `NewSPSCRing` (spsc.go lines 47-58): size 0 defaults to 8192; a
non-power-of-two size panics (modelled as `none`). -/
def NewSPSCRing (T : Type) [Inhabited T] (size : Nat) : Option (SPSCRing T) :=
  let sz := if size = 0 then 8192 else size
  if Nat.land sz (sz - 1) ≠ 0 then none
  else some ⟨0, 0, 0, 0, List.replicate sz default, sz - 1⟩

/-- Go `SPSCRing.Enqueue` (spsc.go lines 64-77): full test against the
producer-local `cachedHead`, reloading it from `head` only when the ring
looks full; on success write the slot at `tail & mask` and publish
`tail + 1`. -/
def SPSCRing.Enqueue {T : Type} (r : SPSCRing T) (v : T) : Bool × SPSCRing T :=
  let tail := r.tail
  if tail - r.cachedHead > r.mask then
    let ch := r.head
    if tail - ch > r.mask then
      (false, { r with cachedHead := ch })
    else
      (true, { r with cachedHead := ch,
                      buf := r.buf.set (Nat.land tail r.mask) v,
                      tail := tail + 1 })
  else
    (true, { r with buf := r.buf.set (Nat.land tail r.mask) v,
                    tail := tail + 1 })

/-- Go `SPSCRing.Dequeue` (spsc.go lines 83-96): empty test against the
consumer-local `cachedTail`, reloading from `tail` only when the ring
looks empty; on success read the slot at `head & mask`, zero it, publish
`head + 1`. -/
def SPSCRing.Dequeue {T : Type} [Inhabited T] (r : SPSCRing T) :
    Option T × SPSCRing T :=
  let head := r.head
  if head = r.cachedTail then
    let ct := r.tail
    if head = ct then (none, { r with cachedTail := ct })
    else
      (some (r.buf.getD (Nat.land head r.mask) default),
       { r with cachedTail := ct,
                buf := r.buf.set (Nat.land head r.mask) default,
                head := head + 1 })
  else
    (some (r.buf.getD (Nat.land head r.mask) default),
     { r with buf := r.buf.set (Nat.land head r.mask) default,
              head := head + 1 })

/-- The states an SPSC ring can be in: freshly constructed, or the result
of an `Enqueue` or `Dequeue` on a reachable state (the scheduler
architecture guarantees the operations are not concurrent with
themselves, so the sequential interleaving of Enqueue/Dequeue steps is
the whole behavior). -/
inductive SPSCReachable {T : Type} [Inhabited T] : SPSCRing T → Prop where
  | init (size : Nat) (r : SPSCRing T) (h : NewSPSCRing T size = some r) :
      SPSCReachable r
  | enq (r : SPSCRing T) (v : T) (h : SPSCReachable r) :
      SPSCReachable (r.Enqueue v).2
  | deq (r : SPSCRing T) (h : SPSCReachable r) :
      SPSCReachable (r.Dequeue).2

/-- The inductive invariant of the SPSC ring: the local caches never run
ahead of the peer's published index, and occupancy is at most capacity. -/
def SPSCInv {T : Type} (r : SPSCRing T) : Prop :=
  r.cachedHead ≤ r.head ∧ r.head ≤ r.cachedTail ∧ r.cachedTail ≤ r.tail ∧
  r.tail ≤ r.head + (r.mask + 1)

/-!
Sharded scheduler shutdown, from internal/support/sched (part_009).
-/

/-- One worker of `ShardedScheduler` for the shutdown analysis: the
contents of the rings it owns, the scheduler's stop flag as the worker
reads it, and the events it has dispatched (passed to `loop`). -/
structure SchedWorker where
  rings : List (List Event)
  stopFlag : Bool
  dispatched : List Event

/-- Bounded take from the front of a ring: `workerLoop` consumes at most
32 events per ring per pass (part_009 lines 156-164). -/
def popUpTo : Nat → List Event → List Event × List Event
  | 0, q => ([], q)
  | _ + 1, [] => ([], [])
  | n + 1, e :: q =>
      let r := popUpTo n q
      (e :: r.1, r.2)

/-- One polling pass over the owned rings — the body of `workerLoop`'s
inner loop (part_009 lines 153-165); the idle/park levels only affect
timing and are omitted. -/
def drainPass (s : SchedWorker) : SchedWorker :=
  let step := s.rings.foldl
    (fun (acc : List Event × List (List Event)) ring =>
      let r := popUpTo 32 ring
      (acc.1 ++ r.1, acc.2 ++ [r.2]))
    ([], [])
  ⟨step.2, s.stopFlag, s.dispatched ++ step.1⟩

/-- Go `workerLoop`/`worker` (part_009 lines 134-206), fuel-indexed: the
guard `for !ss.stop.Load()` is checked at the top of every iteration and
the worker returns as soon as it observes the flag — there is no further
drain of the owned rings on the exit path (the parked exit via the done
channel also returns immediately). -/
def workerRun : Nat → SchedWorker → SchedWorker
  | 0, s => s
  | fuel + 1, s => if s.stopFlag then s else workerRun fuel (drainPass s)

/-- Go `ShardedScheduler.Stop` (part_009 lines 209-213): publish the stop
flag (and close the done channel), then join the workers. -/
def SchedStop (s : SchedWorker) : SchedWorker :=
  ⟨s.rings, true, s.dispatched⟩

/-!
PerCPUCounter sizing.  Two revisions of `NewPerCPUCounter` are in the
repository: util/util.go (no slot floor) and the part_004 revision with
the documented eight-slot floor for low-core environments.
-/

/-- The `for sz < n { sz *= 2 }` loop of NewPerCPUCounter, fuel-indexed;
fuel `n` always suffices since `sz` doubles starting from 1. -/
def roundLoop : Nat → Nat → Nat → Nat
  | 0, _, sz => sz
  | fuel + 1, n, sz => if sz < n then roundLoop fuel n (sz * 2) else sz

def roundUpPow2 (n : Nat) : Nat := roundLoop n n 1

/-- util/util.go `NewPerCPUCounter` (lines 26-37): round GOMAXPROCS up to
a power of two and cap at maxSlots = 256; there is no lower bound.
Returns the stored `mask` (slot count minus one). -/
def utilNewPerCPUCounterMask (gomaxprocs : Nat) : Nat :=
  let sz1 := roundUpPow2 gomaxprocs
  let sz2 := if sz1 > 256 then 256 else sz1
  sz2 - 1

/-- part_004 `NewPerCPUCounter` (lines 28-43): same, but with the
documented low-core floor `if sz < 8 { sz = 8 }` applied before the cap. -/
def part004NewPerCPUCounterMask (gomaxprocs : Nat) : Nat :=
  let sz1 := roundUpPow2 gomaxprocs
  let sz2 := if sz1 < 8 then 8 else sz1
  let sz3 := if sz2 > 256 then 256 else sz2
  sz3 - 1

/-!
Helper lemmas.
-/

set_option maxRecDepth 2048

@[simp] theorem children_node (c : List (Seg × TNode)) (p : List Seg) (r : Int) (e : Bool) :
    (TNode.node c p r e).children = c := rfl

@[simp] theorem pattern_node (c : List (Seg × TNode)) (p : List Seg) (r : Int) (e : Bool) :
    (TNode.node c p r e).pattern = p := rfl

@[simp] theorem isEnd_node (c : List (Seg × TNode)) (p : List Seg) (r : Int) (e : Bool) :
    (TNode.node c p r e).isEnd = e := rfl

theorem lookup_setChild_self (l : List (Seg × TNode)) (k : Seg) (v : TNode) :
    lookupChild (setChild l k v) k = some v := by
  induction l with
  | nil => simp [setChild, lookupChild]
  | cons kv rest ih =>
    obtain ⟨k1, v1⟩ := kv
    by_cases h : k1 = k
    · simp [setChild, h, lookupChild]
    · simp [setChild, h, lookupChild, ih]

theorem lookup_setChild_ne (l : List (Seg × TNode)) (k k2 : Seg) (v : TNode)
    (h : k2 ≠ k) : lookupChild (setChild l k v) k2 = lookupChild l k2 := by
  have hks : ¬ k = k2 := fun hh => h hh.symm
  induction l with
  | nil => simp [setChild, lookupChild, hks]
  | cons kv rest ih =>
    obtain ⟨k1, v1⟩ := kv
    by_cases h1 : k1 = k
    · subst h1
      simp [setChild, lookupChild, hks]
    · simp [setChild, h1, lookupChild, ih]

theorem addGo_creates (parts : List Seg) : ∀ (n : TNode) (pat : List Seg),
    TerminalAt (addGo n parts pat) parts pat := by
  induction parts with
  | nil =>
    intro n pat
    exact ⟨_, rfl, rfl, rfl⟩
  | cons a rest ih =>
    intro n pat
    obtain ⟨m, hm, hend, hpat⟩ := ih ((lookupChild n.children a).getD newNode) pat
    exact ⟨m, by simp [addGo, findPath, lookup_setChild_self, hm], hend, hpat⟩

theorem TerminalAt_addGo (s : List Seg) : ∀ (n : TNode) (r pat pfull : List Seg),
    TerminalAt n s pfull → (r = s → pat = pfull) →
    TerminalAt (addGo n r pat) s pfull := by
  induction s with
  | nil =>
    intro n r pat pfull h hrp
    obtain ⟨m, hm, hend, hpat⟩ := h
    have hmn : m = n := by simpa [findPath] using hm.symm
    subst hmn
    cases r with
    | nil => exact ⟨_, rfl, rfl, by simp [addGo, hrp rfl]⟩
    | cons a r1 => exact ⟨_, rfl, by simp [addGo, hend], by simp [addGo, hpat]⟩
  | cons b s1 ih =>
    intro n r pat pfull h hrp
    obtain ⟨m, hm, hend, hpat⟩ := h
    simp only [findPath] at hm
    cases hc : lookupChild n.children b with
    | none => simp [hc] at hm
    | some c =>
      rw [hc] at hm
      simp only [] at hm
      cases r with
      | nil =>
        exact ⟨m, by simp [addGo, findPath, hc, hm], hend, hpat⟩
      | cons a r1 =>
        by_cases hab : a = b
        · subst hab
          obtain ⟨m2, hm2, hend2, hpat2⟩ :=
            ih c r1 pat pfull ⟨m, hm, hend, hpat⟩
              (fun hr1 => hrp (by rw [hr1]))
          refine ⟨m2, ?_, hend2, hpat2⟩
          simp [addGo, findPath, lookup_setChild_self, hc, hm2]
        · refine ⟨m, ?_, hend, hpat⟩
          simp [addGo, findPath, lookup_setChild_ne _ _ _ _ (fun hh => hab hh.symm), hc, hm]

theorem TerminalAt_foldl_Add (p : List Seg) : ∀ (ps : List (List Seg)) (t : TrieMatcher),
    (p ∈ ps ∨ TerminalAt t.root p p) →
    TerminalAt (ps.foldl TrieMatcher.Add t).root p p := by
  intro ps
  induction ps with
  | nil =>
    intro t h
    rcases h with h | h
    · exact absurd h (by simp)
    · simpa using h
  | cons a rest ih =>
    intro t h
    rw [List.foldl_cons]
    apply ih
    rcases h with h | h
    · rcases List.mem_cons.mp h with h | h
      · subst h
        exact Or.inr (addGo_creates p t.root p)
      · exact Or.inl h
    · exact Or.inr (TerminalAt_addGo p t.root a a p h (fun hr => hr))

theorem TerminalAt_addAll (p : List Seg) (ps : List (List Seg)) (h : p ∈ ps) :
    TerminalAt (addAll ps).root p p :=
  TerminalAt_foldl_Add p ps NewTrieMatcher (Or.inl h)

theorem mem_matchRec_star (n : TNode) (p X q : Seg) (pfull : List Seg)
    (h : TerminalAt n [p, "*", q] pfull) : pfull ∈ matchRec n [p, X, q] := by
  obtain ⟨m, hm, hend, hpat⟩ := h
  simp only [findPath] at hm
  cases hc1 : lookupChild n.children p with
  | none => simp [hc1] at hm
  | some c1 =>
    rw [hc1] at hm
    simp only [] at hm
    cases hc2 : lookupChild c1.children "*" with
    | none => simp [hc2] at hm
    | some c2 =>
      rw [hc2] at hm
      simp only [] at hm
      cases hc3 : lookupChild c2.children q with
      | none => simp [hc3] at hm
      | some c3 =>
        rw [hc3] at hm
        have hc3m : c3 = m := by simpa using hm
        subst hc3m
        simp [matchRec, hc1, hc2, hc3, hend, hpat, List.mem_append]

theorem mem_matchRec_dstar (n : TNode) (p : Seg) (rest pfull : List Seg)
    (h : TerminalAt n [p, "**"] pfull) : pfull ∈ matchRec n (p :: rest) := by
  obtain ⟨m, hm, hend, hpat⟩ := h
  simp only [findPath] at hm
  cases hc1 : lookupChild n.children p with
  | none => simp [hc1] at hm
  | some c1 =>
    rw [hc1] at hm
    simp only [] at hm
    cases hc2 : lookupChild c1.children "**" with
    | none => simp [hc2] at hm
    | some c2 =>
      rw [hc2] at hm
      have hc2m : c2 = m := by simpa using hm
      subst hc2m
      cases rest with
      | nil => simp [matchRec, hc1, hc2, hend, hpat, List.mem_append]
      | cons r0 rest1 => simp [matchRec, hc1, hc2, hend, hpat, List.mem_append]

theorem removeGo_deep (parts : List Seg) : ∀ (n : TNode) (k : Nat),
    parts ≠ [] → 18 ≤ k + parts.length → removeGo n parts k = none := by
  induction parts with
  | nil => intro n k hne _; exact absurd rfl hne
  | cons a rest ih =>
    intro n k _ hlen
    by_cases hk : k > maxTrieDepth
    · simp [removeGo, hk]
    · have hrest : rest ≠ [] := by
        have : 1 ≤ rest.length := by
          simp only [List.length_cons] at hlen
          simp [maxTrieDepth] at hk
          omega
        exact List.ne_nil_of_length_pos (by omega)
      have hlen2 : 18 ≤ (k + 1) + rest.length := by
        simp only [List.length_cons] at hlen
        omega
      cases hc : lookupChild n.children a with
      | none => simp [removeGo, hk, hc]
      | some child => simp [removeGo, hk, hc, ih child (k + 1) hrest hlen2]

theorem spscInv_new {T : Type} [Inhabited T] (size : Nat) (r : SPSCRing T)
    (h : NewSPSCRing T size = some r) : SPSCInv r := by
  unfold NewSPSCRing at h
  by_cases hs : size = 0
  · have h8 : Nat.land 8192 8191 = 0 := by decide
    simp only [hs, if_true, if_pos] at h
    rw [h8] at h
    simp only [ne_eq, not_true_eq_false, if_false, reduceIte, Option.some.injEq] at h
    subst h
    simp [SPSCInv]
  · simp only [hs, if_false, reduceIte] at h
    split at h
    · exact absurd h (by simp)
    · simp only [Option.some.injEq] at h
      subst h
      simp [SPSCInv]

theorem spscInv_reachable {T : Type} [Inhabited T] (r : SPSCRing T)
    (h : SPSCReachable r) : SPSCInv r := by
  induction h with
  | init size r h => exact spscInv_new size r h
  | enq r v hr ih =>
    obtain ⟨h1, h2, h3, h4⟩ := ih
    unfold SPSCRing.Enqueue
    dsimp only
    split
    · split
      · simp only [SPSCInv]
        refine ⟨?_, ?_, ?_, ?_⟩ <;> dsimp <;> omega
      · rename_i hc1 hc2
        simp only [SPSCInv]
        refine ⟨?_, ?_, ?_, ?_⟩ <;> dsimp <;> omega
    · rename_i hc1
      simp only [SPSCInv]
      refine ⟨?_, ?_, ?_, ?_⟩ <;> dsimp <;> omega
  | deq r hr ih =>
    obtain ⟨h1, h2, h3, h4⟩ := ih
    unfold SPSCRing.Dequeue
    dsimp only
    split
    · split
      · rename_i hc1 hc2
        simp only [SPSCInv]
        refine ⟨?_, ?_, ?_, ?_⟩ <;> dsimp <;> omega
      · rename_i hc1 hc2
        simp only [SPSCInv]
        refine ⟨?_, ?_, ?_, ?_⟩ <;> dsimp <;> omega
    · rename_i hc1
      simp only [SPSCInv]
      refine ⟨?_, ?_, ?_, ?_⟩ <;> dsimp <;> omega

theorem syncEmit_ignores_closed (sb : SyncBus) (se : Option Event) :
    (({ sb with closed := true } : SyncBus).Emit se).1 =
      { (sb.Emit se).1 with closed := true } ∧
    (({ sb with closed := true } : SyncBus).Emit se).2 = (sb.Emit se).2 := by
  cases se with
  | none => exact ⟨rfl, rfl⟩
  | some e =>
    cases hA : sb.async with
    | true =>
      constructor <;> simp [SyncBus.Emit, hA, SyncBus.emitAsync]
    | false =>
      simp only [SyncBus.Emit, hA, Bool.false_eq_true, if_false, reduceIte]
      simp only [SyncBus.emitSyncSafe, SyncBus.emitSyncCounted, SyncBus.UnsafeEmit]
      cases hk : (if sb.subs.singleKey = e.etype then runHandlers sb.subs.singleHandlers e
                  else runHandlers (lookupHS sb.subs.handlers e.etype) e).2 <;>
        simp [hk, hA]

theorem runStages_error_skips_rest (events : List Event) (hne : events ≠ []) :
    ∀ (pre : List Stage) (bad : Stage) (post : List Stage) (msg : String),
      (∀ st ∈ pre, st events = none) → bad events = some msg →
      runStages (pre ++ bad :: post) events =
        pre.map (fun _ => (none : Option String)) ++ [some msg] := by
  have hemp : events.isEmpty = false := by
    cases events with
    | nil => exact absurd rfl hne
    | cons a l => rfl
  intro pre
  induction pre with
  | nil =>
    intro bad post msg _ hbad
    simp [runStages, hemp, hbad]
  | cons st pre1 ih =>
    intro bad post msg hpre hbad
    have hst : st events = none := hpre st (by simp)
    simp [runStages, hemp, hst, ih bad post msg (fun s hs => hpre s (by simp [hs])) hbad]

theorem pushAt_none_of_full (bufs : List RB) (e : Event) (i : Nat)
    (hfull : ∀ r ∈ bufs, ¬ r.buf.length < r.cap) : pushAt bufs i e = none := by
  unfold pushAt
  cases hg : bufs[i]? with
  | none => rfl
  | some r =>
    have hr : r ∈ bufs := List.getElem?_mem hg
    simp [RB.push, hfull r hr]

theorem tryPushIdx_none_of_full (bufs : List RB) (e : Event)
    (hfull : ∀ r ∈ bufs, ¬ r.buf.length < r.cap) (idxs : List Nat) :
    tryPushIdx bufs e idxs = none := by
  induction idxs with
  | nil => rfl
  | cons i rest ih => simp [tryPushIdx, pushAt_none_of_full bufs e i hfull, ih]

/-!
Shared concrete objects for counterexamples and witnesses.
-/

/-- A plain event of type "x". -/
def evX : Event := ⟨[], "x", "", "", [], 0⟩

/-- A handler (id 1) that always succeeds. -/
def okHandler1 : Handler := ⟨1, fun _ => .ok⟩

/-- A handler (id 3) that always succeeds. -/
def okHandler3 : Handler := ⟨3, fun _ => .ok⟩

/-- A handler (id 7) that always succeeds. -/
def okHandler7 : Handler := ⟨7, fun _ => .ok⟩

/-!
Claim C1 — Flow pipeline stage errors and handler dispatch.
-/

/-- A stage that always fails. -/
def boomStage : Stage := fun _ => some "boom"

/-- A Flow bus with one always-failing stage and one subscriber on "x"
(snapshot as built by `buildFlowSnapshot`), one shard of capacity 4. -/
def c1FlowBus : FlowBus :=
  ⟨NewTrieMatcher, [⟨[], 4⟩], 0, 1, buildFlowSnapshot [⟨1, "x", okHandler3⟩],
   false, [boomStage], 0, 0, 0⟩

/-- Counterexample to claim C1 as stated: in `processBatch`, a stage error
only breaks the stage loop; the batch with one event of type "x" is still
dispatched to the subscribed handler (id 3), although the only stage
returned an error. -/
theorem C1_counterexample :
    (c1FlowBus.processBatch [evX]).1 = [some "boom"] ∧
    (c1FlowBus.processBatch [evX]).2.1 = [(3, evX)] ∧
    (c1FlowBus.processBatch [evX]).2.2.processed = 1 := by
  decide

/-- Claim C1 (amended): when a pipeline stage returns an error for a
non-empty batch, the remaining stages are skipped, but handler dispatch
still takes place exactly as if no stage had failed, and (when no handler
panics) the batch is counted as processed and as one batch. -/
theorem C1_stage_error_still_dispatches (bus : FlowBus) (events : List Event)
    (pre post : List Stage) (bad : Stage) (msg : String)
    (hstages : bus.stages = pre ++ bad :: post)
    (hpre : ∀ st ∈ pre, st events = none)
    (hbad : bad events = some msg)
    (hne : events ≠ []) :
    (bus.processBatch events).1 =
      pre.map (fun _ => (none : Option String)) ++ [some msg] ∧
    (bus.processBatch events).2.1 = (dispatchFlow bus.snap bus.matcher events).1 ∧
    ((dispatchFlow bus.snap bus.matcher events).2 = none →
      (bus.processBatch events).2.2.processed = bus.processed + events.length ∧
      (bus.processBatch events).2.2.batches = bus.batches + 1) := by
  have hemp : events.isEmpty = false := by
    cases events with
    | nil => exact absurd rfl hne
    | cons a l => rfl
  unfold FlowBus.processBatch
  simp only [hemp, Bool.false_eq_true, if_false, reduceIte]
  refine ⟨?_, ?_, ?_⟩
  · rw [hstages]
    cases hd : (dispatchFlow bus.snap bus.matcher events).2 <;>
      simp [hd, runStages_error_skips_rest events hne pre bad post msg hpre hbad]
  · cases hd : (dispatchFlow bus.snap bus.matcher events).2 <;> simp [hd]
  · intro h0
    simp [h0]

/-- Witness for C1_stage_error_still_dispatches on the concrete bus. -/
theorem C1_stage_error_still_dispatches_witness :
    (c1FlowBus.stages = [] ++ boomStage :: [] ∧
     (∀ st ∈ ([] : List Stage), st [evX] = none) ∧
     boomStage [evX] = some "boom" ∧ [evX] ≠ []) ∧
    ((c1FlowBus.processBatch [evX]).1 =
       ([] : List Stage).map (fun _ => (none : Option String)) ++ [some "boom"] ∧
     (c1FlowBus.processBatch [evX]).2.1 =
       (dispatchFlow c1FlowBus.snap c1FlowBus.matcher [evX]).1 ∧
     ((dispatchFlow c1FlowBus.snap c1FlowBus.matcher [evX]).2 = none →
       (c1FlowBus.processBatch [evX]).2.2.processed =
         c1FlowBus.processed + [evX].length ∧
       (c1FlowBus.processBatch [evX]).2.2.batches = c1FlowBus.batches + 1)) :=
  ⟨⟨rfl, by simp, rfl, by decide⟩,
   C1_stage_error_still_dispatches c1FlowBus [evX] [] [] boomStage "boom"
     rfl (by simp) rfl (by decide)⟩

/-!
Claim C2 — Sync bus processed counter.
-/

/-- A Sync bus (synchronous mode) with exactly one subscription, pattern
"x", handler id 1 always succeeding. -/
def c2Bus : SyncBus := (NewBus.On "x" okHandler1).2

/-- Claim C2 evaluated at the failing input (N = 1): the emit succeeds
(nil error), the single matching handler runs (id 1), `Stats().Emitted`
is 1, but `Stats().Processed` is 0, not 1 — the synchronous inline emit
path (`emitSyncSafe`/`emitSyncCounted`, part_013) never increments the
processed counter, although the README documents sync Stats as deriving
Processed from Emitted and the spec requires `processed == N`. -/
theorem C2_sync_processed_stays_zero :
    (c2Bus.Emit (some evX)).2.2 = none ∧
    (c2Bus.Emit (some evX)).2.1 = [1] ∧
    ((c2Bus.Emit (some evX)).1.Stats).Processed = 0 ∧
    ((c2Bus.Emit (some evX)).1.Stats).Emitted = 1 := by
  decide

/-!
Claim C3 — single-segment wildcard matching.
-/

/-- Claim C3 (amended): in any matcher built by `Add` calls among which
the pattern `p.*.q` occurs, and for any segment `X` that is non-empty and
contains no dot, `Match (p.X.q)` contains `p.*.q` PROVIDED the event type
`p.X.q` is not itself in the exact-match set (i.e. was not itself added as
a wildcard-free pattern): the exact-match fast path of `TrieMatcher.Match`
(matcher.go lines 217-222) otherwise returns only the event type itself. -/
theorem C3_star_pattern_matched (p X q : Seg) (ps : List (List Seg))
    (hadd : [p, "*", q] ∈ ps)
    (hX1 : X ≠ "") (hX2 : segHasDot X = false)
    (hp : segHasDot p = false) (hq : segHasDot q = false)
    (hexact : [p, X, q] ∉ (addAll ps).exact) :
    [p, "*", q] ∈ (addAll ps).Match [p, X, q] := by
  unfold TrieMatcher.Match
  rw [if_neg hexact]
  exact mem_matchRec_star _ p X q _ (TerminalAt_addAll _ ps hadd)

/-- Counterexample to claim C3 as stated: when the event type `p.X.q` has
itself also been added as a pattern, the exact-match fast path returns
only `[p.X.q]`, which does not contain `p.*.q`. -/
theorem C3_counterexample :
    ["p", "*", "q"] ∉
      (addAll [["p", "*", "q"], ["p", "a", "q"]]).Match ["p", "a", "q"] := by
  decide

/-- Witness for C3_star_pattern_matched at `p.*.q`, `X := "a"`. -/
theorem C3_star_pattern_matched_witness :
    (["p", "*", "q"] ∈ [[("p" : Seg), "*", "q"]] ∧ ("a" : Seg) ≠ "" ∧
      segHasDot "a" = false ∧ segHasDot "p" = false ∧ segHasDot "q" = false ∧
      ["p", "a", "q"] ∉ (addAll [["p", "*", "q"]]).exact) ∧
    ["p", "*", "q"] ∈ (addAll [["p", "*", "q"]]).Match ["p", "a", "q"] :=
  ⟨⟨by decide, by decide, by decide, by decide, by decide, by decide⟩,
   C3_star_pattern_matched "p" "a" "q" [["p", "*", "q"]]
     (by decide) (by decide) (by decide) (by decide) (by decide) (by decide)⟩

/-!
Claim C4 — SPSC ring occupancy bounds.
-/

/-- Claim C4: in every reachable SPSC ring state (fresh ring, or any
sequential interleaving of Enqueue and Dequeue steps, which is the whole
behavior under the scheduler's single-writer/single-reader guarantee),
the occupancy `tail - head` lies in `[0, capacity]`: `head ≤ tail` (a
Dequeue never stores a head beyond tail — it returns empty instead) and
`tail ≤ head + capacity` with capacity `mask + 1` (an Enqueue never
stores a tail beyond head + capacity — it returns false instead). -/
theorem C4_spsc_occupancy_bounds {T : Type} [Inhabited T] (r : SPSCRing T)
    (h : SPSCReachable r) :
    r.head ≤ r.tail ∧ r.tail ≤ r.head + (r.mask + 1) := by
  obtain ⟨h1, h2, h3, h4⟩ := spscInv_reachable r h
  exact ⟨le_trans h2 h3, h4⟩

/-- A fresh size-8 ring of naturals. -/
def spscW0 : SPSCRing Nat := ⟨0, 0, 0, 0, List.replicate 8 0, 7⟩

/-- The ring after one Enqueue and one Dequeue. -/
def spscW2 : SPSCRing Nat := ((spscW0.Enqueue 5).2.Dequeue).2

/-- Witness for C4 on a concrete reachable state. -/
theorem C4_spsc_occupancy_bounds_witness :
    spscW2.head ≤ spscW2.tail ∧ spscW2.tail ≤ spscW2.head + (spscW2.mask + 1) :=
  C4_spsc_occupancy_bounds spscW2
    (SPSCReachable.deq _ (SPSCReachable.enq spscW0 5
      (SPSCReachable.init 8 spscW0 (by decide))))

/-!
Claim C5 — scheduler shutdown drain.
-/

/-- Claim C5 evaluated on the code (the claim itself is a code bug): once
`Stop` has published the stop flag, a worker at the top of its loop exits
immediately — for every fuel and every worker state, `workerRun` after
`SchedStop` dispatches nothing further and leaves the owned rings exactly
as they were.  The claimed "one more full drain of its owned rings" does
not exist in `workerLoop`: events still enqueued when Stop is called are
never dispatched. -/
theorem C5_stop_skips_final_drain (fuel : Nat) (s : SchedWorker) :
    workerRun fuel (SchedStop s) = SchedStop s ∧
    (workerRun fuel (SchedStop s)).dispatched = s.dispatched ∧
    (workerRun fuel (SchedStop s)).rings = s.rings := by
  have h : workerRun fuel (SchedStop s) = SchedStop s := by
    cases fuel with
    | zero => rfl
    | succ n => simp [workerRun, SchedStop]
  refine ⟨h, ?_, ?_⟩ <;> rw [h] <;> rfl

/-!
Claim C6 — emit after close, per bus variant.
-/

/-- Counterexample to claim C6 as stated: on a Sync bus (synchronous
mode) that has been closed, `Emit` still returns success AND still
invokes the subscribed handler (id 7) — the event is not dropped. -/
theorem C6_counterexample :
    ((NewBus.On "x" okHandler7).2.Close).closed = true ∧
    (((NewBus.On "x" okHandler7).2.Close).Emit (some evX)).2.1 = [7] ∧
    (((NewBus.On "x" okHandler7).2.Close).Emit (some evX)).2.2 = none := by
  decide

/-- Claim C6 (amended): after close, the Flow and Async buses silently
drop emits (success, no state change, no handler invocation); the Sync
bus's `Emit`, however, never consults the closed flag — with the flag
set it behaves exactly as on the open bus (same returned error, same
handler invocations, same counter updates), so handlers are still
invoked after close in synchronous mode. -/
theorem C6_emit_after_close (fb : FlowBus) (ab : AsyncBus) (sb : SyncBus)
    (fe ae se : Option Event)
    (hf : fb.closed = true) (ha : ab.closed = true) :
    fb.Emit fe = (none, [], fb) ∧
    ab.Emit ae = (none, ab) ∧
    ((({ sb with closed := true } : SyncBus).Emit se).1 =
        { (sb.Emit se).1 with closed := true } ∧
     (({ sb with closed := true } : SyncBus).Emit se).2 = (sb.Emit se).2) := by
  refine ⟨?_, ?_, syncEmit_ignores_closed sb se⟩
  · cases fe with
    | none => rfl
    | some e => simp [FlowBus.Emit, hf]
  · cases ae with
    | none => rfl
    | some e => simp [AsyncBus.Emit, ha]

/-- A closed Flow bus with no subscriptions. -/
def c6FlowBus : FlowBus :=
  ⟨NewTrieMatcher, [⟨[], 4⟩], 0, 1, buildFlowSnapshot [], true, [], 0, 0, 0⟩

/-- A closed Async bus. -/
def c6AsyncBus : AsyncBus := ⟨true, []⟩

/-- An open Sync bus with one subscription on "x". -/
def c6SyncBus : SyncBus := (NewBus.On "x" okHandler7).2

/-- Witness for C6_emit_after_close on concrete closed buses. -/
theorem C6_emit_after_close_witness :
    (c6FlowBus.closed = true ∧ c6AsyncBus.closed = true) ∧
    (c6FlowBus.Emit (some evX) = (none, [], c6FlowBus) ∧
     c6AsyncBus.Emit (some evX) = (none, c6AsyncBus) ∧
     ((({ c6SyncBus with closed := true } : SyncBus).Emit (some evX)).1 =
        { (c6SyncBus.Emit (some evX)).1 with closed := true } ∧
      (({ c6SyncBus with closed := true } : SyncBus).Emit (some evX)).2 =
        (c6SyncBus.Emit (some evX)).2)) :=
  ⟨⟨rfl, rfl⟩,
   C6_emit_after_close c6FlowBus c6AsyncBus c6SyncBus
     (some evX) (some evX) (some evX) rfl rfl⟩

/-!
Claim C7 — multi-segment wildcard matches zero trailing segments.
-/

/-- Claim C7 (amended): in any matcher built by `Add` calls among which
the pattern `p.**` occurs, `Match` of the event type made of `p` followed
by ANY trailing segments — including none at all, although the documented
grammar says `**` matches one or more — contains `p.**`, PROVIDED the
queried event type is not itself in the exact-match set (the exact-match
fast path otherwise returns only the event type itself). -/
theorem C7_dstar_pattern_matched (p : Seg) (rest : List Seg) (ps : List (List Seg))
    (hadd : [p, "**"] ∈ ps)
    (hexact : (p :: rest) ∉ (addAll ps).exact) :
    [p, "**"] ∈ (addAll ps).Match (p :: rest) := by
  unfold TrieMatcher.Match
  rw [if_neg hexact]
  exact mem_matchRec_dstar _ p rest _ (TerminalAt_addAll _ ps hadd)

/-- Counterexample to claim C7 as stated over every matcher state: if the
bare prefix `p` has itself been added as a pattern, the exact-match fast
path makes `Match p` return only `[p]`, without `p.**`. -/
theorem C7_counterexample :
    ["p", "**"] ∉ (addAll [["p", "**"], ["p"]]).Match ["p"] := by
  decide

/-- Witness for C7_dstar_pattern_matched with zero trailing segments, the
case the documented grammar would exclude. -/
theorem C7_dstar_pattern_matched_witness :
    (["p", "**"] ∈ [[("p" : Seg), "**"]] ∧
      [("p" : Seg)] ∉ (addAll [["p", "**"]]).exact) ∧
    ["p", "**"] ∈ (addAll [["p", "**"]]).Match ["p"] :=
  ⟨⟨by decide, by decide⟩,
   C7_dstar_pattern_matched "p" [] [["p", "**"]] (by decide) (by decide)⟩

/-!
Claim C8 — PerCPUCounter slot floor.
-/

/-- Claim C8 evaluated on the code (the claim itself is a code bug): the
util/util.go `NewPerCPUCounter` allocates `mask + 1 = 1` slot at
GOMAXPROCS = 1 — fewer than the eight slots the README and the spec
document — while the part_004 revision, which carries the documented
`if sz < 8 { sz = 8 }` floor, allocates at least eight slots for every
GOMAXPROCS value. -/
theorem C8_percpu_slot_floor :
    utilNewPerCPUCounterMask 1 + 1 = 1 ∧ utilNewPerCPUCounterMask 1 + 1 < 8 ∧
    (∀ n : Nat, 8 ≤ part004NewPerCPUCounterMask n + 1) := by
  refine ⟨by decide, by decide, ?_⟩
  intro n
  unfold part004NewPerCPUCounterMask
  dsimp only
  split_ifs <;> omega

/-!
Claim C9 — Flow EmitBatch drops on a full shard, Emit does not.
-/

/-- Claim C9: on an open Flow bus whose shard rings are full, (a)
`EmitBatch` with one non-nil event returns success, leaves every ring
unchanged (the push return value is ignored, no other shard is tried, no
inline processing happens — processed is unchanged) yet still increments
the emitted counter, while (b) single-event `Emit` on the same state also
increments emitted, leaves the full rings unchanged, but falls back to
processing the event inline: its handler dispatch log is that of
`processBatch` and (when no handler panics) processed grows by one. -/
theorem C9_emitbatch_drops_when_full (bus : FlowBus) (e : Event)
    (hclosed : bus.closed = false)
    (hfull : ∀ r ∈ bus.buffers, ¬ r.buf.length < r.cap) :
    ((bus.EmitBatch [some e]).1 = none ∧
     (bus.EmitBatch [some e]).2.1 = [] ∧
     (bus.EmitBatch [some e]).2.2.buffers = bus.buffers ∧
     (bus.EmitBatch [some e]).2.2.emitted = bus.emitted + 1 ∧
     (bus.EmitBatch [some e]).2.2.processed = bus.processed) ∧
    ((bus.Emit (some e)).1 = none ∧
     (bus.Emit (some e)).2.1 = (dispatchFlow bus.snap bus.matcher [e]).1 ∧
     (bus.Emit (some e)).2.2.buffers = bus.buffers ∧
     (bus.Emit (some e)).2.2.emitted = bus.emitted + 1 ∧
     ((dispatchFlow bus.snap bus.matcher [e]).2 = none →
       (bus.Emit (some e)).2.2.processed = bus.processed + 1)) := by
  have hb : ∀ i, pushAt bus.buffers i e = none :=
    fun i => pushAt_none_of_full bus.buffers e i hfull
  constructor
  · unfold FlowBus.EmitBatch
    simp [hclosed, hb]
  · unfold FlowBus.Emit
    simp only [hclosed, Bool.false_eq_true, if_false, reduceIte]
    rw [hb, tryPushIdx_none_of_full bus.buffers e hfull]
    unfold FlowBus.processBatch
    simp only [List.isEmpty_cons, Bool.false_eq_true, if_false, reduceIte]
    cases hd : (dispatchFlow bus.snap bus.matcher [e]).2 <;>
      simp [hd]

/-- An event of type "f" pre-filling the rings. -/
def evF : Event := ⟨[], "f", "", "", [], 0⟩

/-- An open Flow bus with two shards of capacity 1, both full, and one
subscriber on "x". -/
def c9FlowBus : FlowBus :=
  ⟨NewTrieMatcher, [⟨[evF], 1⟩, ⟨[evF], 1⟩], 1, 2,
   buildFlowSnapshot [⟨1, "x", okHandler3⟩], false, [], 0, 0, 0⟩

/-- Witness for C9 on the concrete full bus. -/
theorem C9_emitbatch_drops_when_full_witness :
    (c9FlowBus.closed = false ∧
     (∀ r ∈ c9FlowBus.buffers, ¬ r.buf.length < r.cap)) ∧
    (((c9FlowBus.EmitBatch [some evX]).1 = none ∧
      (c9FlowBus.EmitBatch [some evX]).2.1 = [] ∧
      (c9FlowBus.EmitBatch [some evX]).2.2.buffers = c9FlowBus.buffers ∧
      (c9FlowBus.EmitBatch [some evX]).2.2.emitted = c9FlowBus.emitted + 1 ∧
      (c9FlowBus.EmitBatch [some evX]).2.2.processed = c9FlowBus.processed) ∧
     ((c9FlowBus.Emit (some evX)).1 = none ∧
      (c9FlowBus.Emit (some evX)).2.1 =
        (dispatchFlow c9FlowBus.snap c9FlowBus.matcher [evX]).1 ∧
      (c9FlowBus.Emit (some evX)).2.2.buffers = c9FlowBus.buffers ∧
      (c9FlowBus.Emit (some evX)).2.2.emitted = c9FlowBus.emitted + 1 ∧
      ((dispatchFlow c9FlowBus.snap c9FlowBus.matcher [evX]).2 = none →
        (c9FlowBus.Emit (some evX)).2.2.processed = c9FlowBus.processed + 1))) :=
  ⟨⟨rfl, by decide⟩,
   C9_emitbatch_drops_when_full c9FlowBus evX rfl (by decide)⟩

/-!
Claim C10 — deep patterns cannot be removed.
-/

/-- Claim C10: a pattern with more than 16 (`maxTrieDepth`) dot-separated
segments is inserted by `Add` with no depth check (it terminates in the
trie carrying itself as pattern), but `Remove` on it returns early,
leaving the whole matcher state — trie, exact set and cache version, so
in particular refCounts, pruning and version — unchanged; once added,
such a pattern can never be removed. -/
theorem C10_deep_pattern_unremovable (t : TrieMatcher) (pat : List Seg)
    (h : 16 < pat.length) :
    t.Remove pat = t ∧ TerminalAt (t.Add pat).root pat pat := by
  constructor
  · unfold TrieMatcher.Remove
    rw [removeGo_deep pat t.root 1
      (List.ne_nil_of_length_pos (by omega)) (by omega)]
  · exact addGo_creates pat t.root pat

/-- Witness for C10 at a concrete 17-segment pattern on a fresh matcher. -/
theorem C10_deep_pattern_unremovable_witness :
    16 < (List.replicate 17 ("s" : Seg)).length ∧
    (NewTrieMatcher.Remove (List.replicate 17 "s") = NewTrieMatcher ∧
      TerminalAt (NewTrieMatcher.Add (List.replicate 17 "s")).root
        (List.replicate 17 "s") (List.replicate 17 "s")) :=
  ⟨by decide,
   C10_deep_pattern_unremovable NewTrieMatcher (List.replicate 17 "s") (by decide)⟩

end Beat
